import Mathlib

/-!
Verification of the bgrun repository against its specification.

The development shallowly embeds the Go sources:
byte streams are lists of natural numbers below 256, machine integers are
modelled as Nat or Int with explicit reductions modulo powers of two where
the Go code converts between integer widths, and fallible operations
return Option or Except.

Sections:
1. the framed wire protocol (protocol/message.go),
2. the terminal emulator (termemu/termemu.go, the vt100 parser with SGR),
3. the export line selection (termemu/export.go),
4. the daemon dispatch validation (daemon handlers),
5. the tombstone-mode client (bgclient/client.go).
-/

namespace BGRun

/-! ## 1. Frame codec (protocol/message.go) -/

/-- Big-endian 4-byte encoding of a natural number, as in the binary.Write
call of WriteMessage; each entry is a byte value below 256. -/
def toBytesBE4 (n : Nat) : List Nat :=
  [n / 2 ^ 24 % 256, n / 2 ^ 16 % 256, n / 2 ^ 8 % 256, n % 256]

/-- Big-endian decoding of a byte list, as in the binary.Read call of
ReadMessage. -/
def fromBytesBE4 (bs : List Nat) : Nat :=
  bs.foldl (fun acc b => acc * 256 + b) 0

/-- Embedding of WriteMessage: a 4-byte big-endian length (1 + payload
length, reduced modulo 2^32 as the Go uint32 conversion does), the type
tag byte, then the payload bytes. -/
def writeMessage (msgType : Nat) (payload : List Nat) : List Nat :=
  toBytesBE4 ((1 + payload.length) % 2 ^ 32) ++ msgType % 256 :: payload

/-- Embedding of ReadMessage: reads the 4-byte length, rejects lengths
outside the range 1 to 10 MiB, reads the type byte and exactly length - 1
payload bytes; a short stream fails.  On success yields the type, the
payload and the unread remainder of the stream. -/
def readMessage (bs : List Nat) : Option (Nat × List Nat × List Nat) :=
  match bs with
  | b0 :: b1 :: b2 :: b3 :: rest =>
    let length := fromBytesBE4 [b0, b1, b2, b3]
    if length < 1 ∨ length > 10 * 1024 * 1024 then none
    else
      match rest with
      | [] => none
      | t :: rest2 =>
        let payloadLen := length - 1
        if rest2.length < payloadLen then none
        else some (t, rest2.take payloadLen, rest2.drop payloadLen)
  | _ => none

/-- Embedding of WriteProcessExit restricted to the payload it frames: the
Go uint32 conversion of the exit code is its value modulo 2^32, written
big-endian. -/
def writeProcessExitPayload (exitCode : Int) : List Nat :=
  toBytesBE4 (exitCode % (2 ^ 32 : Int)).toNat

/-- Embedding of ParseProcessExit: requires a 4-byte payload and converts
the decoded uint32 with the Go expression int(...), which on a 64-bit
platform keeps the unsigned value and performs no sign extension. -/
def parseProcessExit (payload : List Nat) : Except String Int :=
  if payload.length ≠ 4 then Except.error "invalid process exit payload length"
  else Except.ok (Int.ofNat (fromBytesBE4 payload))

/-! ## 2. Terminal emulator (termemu/termemu.go and the vt100 parser)

Cells, attributes and the terminal state mirror the Go structures; strings
are byte lists, runes are byte values (the parser only ever stores single
bytes), colors are the integer Color type with -1 for ColorDefault.  Go
slice indexing panics out of range; the embedding makes those writes
no-ops, and every theorem below only visits states where the indices are
in range. -/

/-- Embedding of the Attributes record; the field defaults give the Go
zero value (note that the zero value has Fg = 0, not ColorDefault). -/
structure Attributes where
  bold : Bool := false
  dim : Bool := false
  italic : Bool := false
  underline : Bool := false
  blink : Bool := false
  reverse : Bool := false
  hidden : Bool := false
  strike : Bool := false
  fg : Int := 0
  bg : Int := 0
deriving DecidableEq, Repr

/-- The pen value produced by SGR 0 and by NewTerminal: all flags cleared
and both colors ColorDefault. -/
def attrReset : Attributes := { fg := -1, bg := -1 }

/-- Embedding of the Cell record; the defaults give the Go zero value. -/
structure Cell where
  char : Nat := 0
  attr : Attributes := {}
  hyperlinkId : List Nat := []
  hyperlinkUrl : List Nat := []
deriving DecidableEq, Repr

/-- Embedding of the Hyperlink record (OSC 8 state). -/
structure Hyperlink where
  url : List Nat
  id : List Nat
deriving DecidableEq, Repr

/-- The Go zero value of Cell. -/
def emptyCell : Cell := {}

/-- A freshly allocated row of n zero cells. -/
def emptyRowOf (n : Nat) : List Cell := List.replicate n emptyCell

/-- Embedding of the Terminal state.  Row and column counts are the
constructor arguments, always used positive; the cursor coordinates are
Go ints and may in principle leave the viewport, hence Int. -/
structure Terminal where
  rows : Nat
  cols : Nat
  screen : List (List Cell)
  scrollback : List (List Cell)
  cursorRow : Int
  cursorCol : Int
  maxScrollback : Nat
  hyperlink : Option Hyperlink
  currentAttr : Attributes
deriving DecidableEq, Repr

/-- Embedding of NewTerminal. -/
def newTerminal (rows cols : Nat) : Terminal :=
  { rows := rows
    cols := cols
    screen := List.replicate rows (emptyRowOf cols)
    scrollback := []
    cursorRow := 0
    cursorCol := 0
    maxScrollback := 1000
    hyperlink := none
    currentAttr := attrReset }

/-- Writes one cell of the screen; where Go would panic on an
out-of-range index this is a no-op. -/
def setScreenCell (screen : List (List Cell)) (r c : Int) (cell : Cell) :
    List (List Cell) :=
  if 0 ≤ r ∧ 0 ≤ c then
    screen.set r.toNat ((screen.getD r.toNat []).set c.toNat cell)
  else screen

/-- Replaces one full row of the screen through a row transformer; a
no-op where Go would panic. -/
def updateRow (screen : List (List Cell)) (r : Int)
    (f : List Cell → List Cell) : List (List Cell) :=
  if 0 ≤ r then screen.set r.toNat (f (screen.getD r.toNat [])) else screen

/-- The line pushed into scrollback by lineFeed: a fresh slice of cols
cells with the first screen row copied in (the copy builtin copies the
shorter of the two lengths). -/
def topLineOf (t : Terminal) : List Cell :=
  let src := t.screen.headD []
  let taken := src.take t.cols
  taken ++ List.replicate (t.cols - taken.length) emptyCell

/-- Embedding of lineFeed: advance the cursor row, and on falling off the
bottom push row 0 into the scrollback (trimming the oldest entry past
maxScrollback), shift the rows up, clear the bottom row and pin the
cursor to the last row. -/
def Terminal.lineFeed (t : Terminal) : Terminal :=
  let r := t.cursorRow + 1
  if r ≥ (t.rows : Int) then
    let sb :=
      if 0 < t.screen.length then
        let sb1 := t.scrollback ++ [topLineOf t]
        if sb1.length > t.maxScrollback then sb1.drop 1 else sb1
      else t.scrollback
    let shifted := t.screen.drop 1 ++ t.screen.drop (t.screen.length - 1)
    { t with
      scrollback := sb
      screen := shifted.set (t.rows - 1) (emptyRowOf t.cols)
      cursorRow := (t.rows : Int) - 1 }
  else { t with cursorRow := r }

/-- Embedding of putChar: wrap via lineFeed when the column has reached
cols, clamp a row overflow, then store the cell bearing the current pen
and hyperlink and advance the column. -/
def Terminal.putChar (t : Terminal) (ch : Nat) : Terminal :=
  let t1 :=
    if t.cursorCol ≥ (t.cols : Int) then
      let tf := t.lineFeed
      { tf with cursorCol := 0 }
    else t
  let t2 :=
    if t1.cursorRow ≥ (t1.rows : Int) then { t1 with cursorRow := (t1.rows : Int) - 1 }
    else t1
  let cell : Cell :=
    { char := ch
      attr := t2.currentAttr
      hyperlinkUrl := match t2.hyperlink with | some h => h.url | none => []
      hyperlinkId := match t2.hyperlink with | some h => h.id | none => [] }
  { t2 with
    screen := setScreenCell t2.screen t2.cursorRow t2.cursorCol cell
    cursorCol := t2.cursorCol + 1 }

/-- Embedding of carriageReturn. -/
def Terminal.carriageReturn (t : Terminal) : Terminal := { t with cursorCol := 0 }

/-- Embedding of backspace. -/
def Terminal.backspace (t : Terminal) : Terminal :=
  if t.cursorCol > 0 then { t with cursorCol := t.cursorCol - 1 } else t

/-- Embedding of moveCursor: clamp both coordinates into the viewport. -/
def Terminal.moveCursor (t : Terminal) (row col : Int) : Terminal :=
  let row1 := if row < 0 then 0 else row
  let row2 := if row1 ≥ (t.rows : Int) then (t.rows : Int) - 1 else row1
  let col1 := if col < 0 then 0 else col
  let col2 := if col1 ≥ (t.cols : Int) then (t.cols : Int) - 1 else col1
  { t with cursorRow := row2, cursorCol := col2 }

/-- Embedding of clearScreen: every row up to rows is replaced by a fresh
row and the cursor homes. -/
def Terminal.clearScreen (t : Terminal) : Terminal :=
  { t with
    screen := t.screen.mapIdx fun i row =>
      if i < t.rows then emptyRowOf t.cols else row
    cursorRow := 0
    cursorCol := 0 }

/-- Embedding of clearLine: the cursor row is replaced by a fresh row and
the column resets to 0. -/
def Terminal.clearLine (t : Terminal) : Terminal :=
  { t with
    screen :=
      if 0 ≤ t.cursorRow then t.screen.set t.cursorRow.toNat (emptyRowOf t.cols)
      else t.screen
    cursorCol := 0 }

/-! ### CSI parameter parsing -/

/-- Decimal value of a digit byte list, as accumulated by Atoi. -/
def digitsToNat (ds : List Nat) : Nat := ds.foldl (fun a d => a * 10 + (d - 48)) 0

/-- Embedding of strconv.Atoi on a byte list: an optional sign followed
by at least one digit, rejecting other characters and values outside the
64-bit range. -/
def atoiBytes (s : List Nat) : Option Int :=
  match s with
  | [] => none
  | c :: rest =>
    let neg := c = 45
    let digits := if c = 45 ∨ c = 43 then rest else s
    if digits = [] then none
    else if digits.all (fun d => 48 ≤ d && d ≤ 57) then
      let v : Int := (digitsToNat digits : Int)
      let i : Int := if neg then -v else v
      if -(2 ^ 63) ≤ i ∧ i ≤ 2 ^ 63 - 1 then some i else none
    else none

/-- Splitting a byte list on a separator, as strings.Split does (an empty
input yields one empty group). -/
def splitOnByte (sep : Nat) : List Nat → List (List Nat)
  | [] => [[]]
  | b :: rest =>
    match splitOnByte sep rest with
    | g :: gs => if b = sep then [] :: g :: gs else (b :: g) :: gs
    | [] => [[b]]

/-- Embedding of parseParams: split the accumulated buffer on semicolons
and keep the groups Atoi accepts. -/
def parseParams (s : List Nat) : List Int :=
  if s = [] then [] else (splitOnByte 59 s).filterMap atoiBytes

/-! ### SGR -/

/-- One non-introducer SGR parameter applied to the pen; collapses the
per-code cases of processSGR. -/
def applySGR1 (a : Attributes) (p : Int) : Attributes :=
  if p = 0 then attrReset
  else if p = 1 then { a with bold := true }
  else if p = 2 then { a with dim := true }
  else if p = 3 then { a with italic := true }
  else if p = 4 then { a with underline := true }
  else if p = 5 then { a with blink := true }
  else if p = 7 then { a with reverse := true }
  else if p = 8 then { a with hidden := true }
  else if p = 9 then { a with strike := true }
  else if p = 22 then { a with bold := false, dim := false }
  else if p = 23 then { a with italic := false }
  else if p = 24 then { a with underline := false }
  else if p = 25 then { a with blink := false }
  else if p = 27 then { a with reverse := false }
  else if p = 28 then { a with hidden := false }
  else if p = 29 then { a with strike := false }
  else if 30 ≤ p ∧ p ≤ 37 then { a with fg := p - 30 }
  else if p = 39 then { a with fg := -1 }
  else if 40 ≤ p ∧ p ≤ 47 then { a with bg := p - 40 }
  else if p = 49 then { a with bg := -1 }
  else if 90 ≤ p ∧ p ≤ 97 then { a with fg := p - 90 + 8 }
  else if 100 ≤ p ∧ p ≤ 107 then { a with bg := p - 100 + 8 }
  else a

/-- The iteration of processSGR over an explicit parameter list: 38 and
48 inspect the following parameters exactly as the Go index arithmetic
does (a 5 with an index value consumes two parameters, a 2 with three
more consumes four, an incomplete introducer consumes nothing extra). -/
def processSGRList : List Int → Attributes → Attributes
  | [], a => a
  | p :: q :: rest2, a =>
    if p = 38 ∨ p = 48 then
      match rest2 with
      | n :: rest3 =>
        if q = 5 then
          processSGRList rest3
            (if n < 16 then
              (if p = 38 then { a with fg := n } else { a with bg := n })
            else a)
        else if q = 2 then
          if 2 ≤ rest3.length then processSGRList (rest3.drop 2) a
          else processSGRList (q :: n :: rest3) a
        else processSGRList (q :: n :: rest3) a
      | [] => processSGRList [q] a
    else processSGRList (q :: rest2) (applySGR1 a p)
  | [p], a => if p = 38 ∨ p = 48 then a else applySGR1 a p
termination_by l _ => l.length
decreasing_by all_goals (simp [List.length_cons]; try omega)

/-- Embedding of processSGR: an empty parameter list is replaced by the
single parameter 0 before iterating. -/
def processSGR (params : List Int) (a : Attributes) : Attributes :=
  processSGRList (if params = [] then [0] else params) a

/-! ### CSI dispatch -/

/-- A byte terminating a CSI sequence: letters, the at sign, the
backquote or the tilde. -/
def isFinalCSIByte (b : Nat) : Bool :=
  (65 ≤ b && b ≤ 90) || (97 ≤ b && b ≤ 122) || b == 64 || b == 96 || b == 126

/-- The CSI A handler: cursor up with clamp at the top row. -/
def csiCursorUp (t : Terminal) (params : List Int) : Terminal :=
  let n := params.headD 1
  let r := t.cursorRow - n
  { t with cursorRow := if r < 0 then 0 else r }

/-- The CSI B handler: cursor down with clamp at the bottom row. -/
def csiCursorDown (t : Terminal) (params : List Int) : Terminal :=
  let n := params.headD 1
  let r := t.cursorRow + n
  { t with cursorRow := if r ≥ (t.rows : Int) then (t.rows : Int) - 1 else r }

/-- The CSI C handler: cursor forward with clamp at the last column. -/
def csiCursorForward (t : Terminal) (params : List Int) : Terminal :=
  let n := params.headD 1
  let c := t.cursorCol + n
  { t with cursorCol := if c ≥ (t.cols : Int) then (t.cols : Int) - 1 else c }

/-- The CSI D handler: cursor back with clamp at column 0. -/
def csiCursorBack (t : Terminal) (params : List Int) : Terminal :=
  let n := params.headD 1
  let c := t.cursorCol - n
  { t with cursorCol := if c < 0 then 0 else c }

/-- The CSI J handler: modes 0 and 2 clear the whole screen (mode 0 has
its partial clear left unimplemented in the source), mode 1 does
nothing. -/
def csiEraseDisplay (t : Terminal) (params : List Int) : Terminal :=
  let mode := params.headD 0
  if mode = 0 then t.clearScreen
  else if mode = 2 then t.clearScreen
  else t

/-- The CSI K handler: mode 0 clears from the cursor to the end of line,
mode 1 from the start through the cursor, mode 2 the whole line via
clearLine. -/
def csiEraseLine (t : Terminal) (params : List Int) : Terminal :=
  let mode := params.headD 0
  if mode = 0 then
    { t with
      screen := updateRow t.screen t.cursorRow fun row =>
        row.mapIdx fun i c =>
          if t.cursorCol ≤ (i : Int) ∧ (i : Int) < (t.cols : Int) then emptyCell else c }
  else if mode = 1 then
    { t with
      screen := updateRow t.screen t.cursorRow fun row =>
        row.mapIdx fun i c =>
          if (i : Int) ≤ t.cursorCol ∧ (i : Int) < (t.cols : Int) then emptyCell else c }
  else if mode = 2 then t.clearLine
  else t

/-- Embedding of executeCSI, dispatching on the final byte with the
accumulated parameter buffer. -/
def Terminal.executeCSI (t : Terminal) (buf : List Nat) (cmd : Nat) : Terminal :=
  let params := parseParams buf
  if cmd = 65 then csiCursorUp t params
  else if cmd = 66 then csiCursorDown t params
  else if cmd = 67 then csiCursorForward t params
  else if cmd = 68 then csiCursorBack t params
  else if cmd = 72 ∨ cmd = 102 then
    t.moveCursor (params.headD 1 - 1) ((params.drop 1).headD 1 - 1)
  else if cmd = 74 then csiEraseDisplay t params
  else if cmd = 75 then csiEraseLine t params
  else if cmd = 109 then { t with currentAttr := processSGR params t.currentAttr }
  else t

/-! ### OSC -/

/-- Splitting on the first separator occurrence, as strings.SplitN with
limit 2: the part before it and, when the separator occurs, the part
after it. -/
def splitN2 (sep : Nat) : List Nat → List Nat × Option (List Nat)
  | [] => ([], none)
  | b :: rest =>
    if b = sep then ([], some rest)
    else
      let (g, r) := splitN2 sep rest
      (b :: g, r)

/-- Embedding of executeOSC: only OSC 8 is handled; an absent or empty
URI clears the hyperlink, otherwise the hyperlink becomes the URI with
the id taken from the first colon-separated parameter carrying the id
key. -/
def Terminal.executeOSC (t : Terminal) (data : List Nat) : Terminal :=
  let (cmd, restOpt) := splitN2 59 data
  if cmd ≠ [56] then t
  else
    match restOpt with
    | none => t
    | some rest =>
      let (params, uriOpt) := splitN2 59 rest
      match uriOpt with
      | none => { t with hyperlink := none }
      | some uri =>
        if uri = [] then { t with hyperlink := none }
        else
          let idv :=
            if params = [] then []
            else
              match (splitOnByte 58 params).find?
                  (fun part => part.take 3 = [105, 100, 61]) with
              | some part => part.drop 3
              | none => []
          { t with hyperlink := some ⟨uri, idv⟩ }

/-! ### The byte-level state machine -/

/-- The parser states of the vt100 parser. -/
inductive ParserState
  | normal
  | escape
  | csi
  | osc
  | oscEscape
deriving DecidableEq, Repr

/-- Parser plus terminal, the state mutated by Terminal.Write. -/
structure Machine where
  term : Terminal
  pstate : ParserState
  buf : List Nat
deriving DecidableEq, Repr

/-- A machine over a freshly constructed terminal. -/
def Machine.new (rows cols : Nat) : Machine :=
  { term := newTerminal rows cols, pstate := .normal, buf := [] }

/-- Embedding of processNormal. -/
def Machine.processNormal (m : Machine) (b : Nat) : Machine :=
  if b = 27 then { m with pstate := .escape, buf := [] }
  else if b = 10 then { m with term := m.term.lineFeed }
  else if b = 13 then { m with term := m.term.carriageReturn }
  else if b = 8 then { m with term := m.term.backspace }
  else if b = 9 then
    if (Int.tdiv m.term.cursorCol 8 + 1) * 8 < (m.term.cols : Int) then
      { m with term := { m.term with cursorCol := (Int.tdiv m.term.cursorCol 8 + 1) * 8 } }
    else m
  else if (32 ≤ b ∧ b < 127) ∨ 160 ≤ b then { m with term := m.term.putChar b }
  else m

/-- Embedding of processEscape. -/
def Machine.processEscape (m : Machine) (b : Nat) : Machine :=
  if b = 91 then { m with pstate := .csi, buf := [] }
  else if b = 93 then { m with pstate := .osc, buf := [] }
  else if b = 77 then
    { m with
      pstate := .normal
      term :=
        if m.term.cursorRow > 0 then { m.term with cursorRow := m.term.cursorRow - 1 }
        else m.term }
  else { m with pstate := .normal }

/-- Embedding of processCSI. -/
def Machine.processCSI (m : Machine) (b : Nat) : Machine :=
  if isFinalCSIByte b then
    { m with term := m.term.executeCSI m.buf b, pstate := .normal }
  else { m with buf := m.buf ++ [b] }

/-- Embedding of processOSC. -/
def Machine.processOSC (m : Machine) (b : Nat) : Machine :=
  if b = 7 then { m with term := m.term.executeOSC m.buf, pstate := .normal }
  else if b = 27 then { m with pstate := .oscEscape }
  else { m with buf := m.buf ++ [b] }

/-- Embedding of processOSCEscape. -/
def Machine.processOSCEscape (m : Machine) (b : Nat) : Machine :=
  if b = 92 then { m with term := m.term.executeOSC m.buf, pstate := .normal }
  else { m with buf := m.buf ++ [27, b], pstate := .osc }

/-- Embedding of processByte. -/
def Machine.processByte (m : Machine) (b : Nat) : Machine :=
  match m.pstate with
  | .normal => m.processNormal b
  | .escape => m.processEscape b
  | .csi => m.processCSI b
  | .osc => m.processOSC b
  | .oscEscape => m.processOSCEscape b

/-- Embedding of Terminal.Write: feed every byte through the parser. -/
def Machine.write (m : Machine) (data : List Nat) : Machine :=
  data.foldl Machine.processByte m

/-- Embedding of Terminal.Resize: fresh matrix, top-left overlap copied,
cursor clamped into the new viewport; scrollback and parser state are
untouched. -/
def Terminal.resize (t : Terminal) (rows cols : Nat) : Terminal :=
  let copyCols := min cols t.cols
  let newScreen := (List.range rows).map fun i =>
    if i < t.rows then
      let firstPart := (t.screen.getD i []).take copyCols
      firstPart ++ List.replicate (cols - firstPart.length) emptyCell
    else emptyRowOf cols
  { t with
    rows := rows
    cols := cols
    screen := newScreen
    cursorRow := if t.cursorRow ≥ (rows : Int) then (rows : Int) - 1 else t.cursorRow
    cursorCol := if t.cursorCol ≥ (cols : Int) then (cols : Int) - 1 else t.cursorCol }

/-- An externally visible operation on the terminal: a Write of a byte
sequence or a Resize. -/
inductive TermOp
  | write (data : List Nat)
  | resize (rows cols : Nat)

/-- Applying one operation to the machine. -/
def Machine.applyOp (m : Machine) : TermOp → Machine
  | .write d => m.write d
  | .resize r c => { m with term := m.term.resize r c }

/-- Applying a sequence of operations. -/
def Machine.applyOps (m : Machine) (ops : List TermOp) : Machine :=
  ops.foldl Machine.applyOp m

/-! ### Instrumentation for the cursor invariant

A CSI parameter string such as -5 parses to a negative number and escapes
the clamping in executeCSI, so the cursor invariant is stated for runs in
which every executed CSI sequence carries only nonnegative parameters.
The predicate below replays the parser and checks exactly that. -/

/-- All parameters of a CSI buffer are nonnegative. -/
def csiParamsNonneg (buf : List Nat) : Bool :=
  (parseParams buf).all fun p => decide (0 ≤ p)

/-- The check performed on one byte before it is processed: only the
execution of a CSI final byte can act on parsed parameters. -/
def Machine.byteOk (m : Machine) (b : Nat) : Bool :=
  match m.pstate with
  | .csi => if isFinalCSIByte b then csiParamsNonneg m.buf else true
  | _ => true

/-- Every CSI executed during the write of the byte list carries only
nonnegative parameters. -/
def Machine.writeOk (m : Machine) : List Nat → Bool
  | [] => true
  | b :: rest => m.byteOk b && (m.processByte b).writeOk rest

/-- The guard under which one operation keeps the cursor in the viewport:
writes must satisfy writeOk, resizes must have positive dimensions. -/
def Machine.opOk (m : Machine) : TermOp → Bool
  | .write d => m.writeOk d
  | .resize r c => decide (1 ≤ r) && decide (1 ≤ c)

/-- The sequential guard over an operation list. -/
def Machine.opsOk : Machine → List TermOp → Bool
  | _, [] => true
  | m, op :: rest => m.opOk op && (m.applyOp op).opsOk rest

/-- The amended cursor invariant: the row is strictly inside the
viewport, the column may also rest one past the last column (the pending
wrap position putChar leaves behind). -/
def CursorInBox (t : Terminal) : Prop :=
  0 ≤ t.cursorRow ∧ t.cursorRow < (t.rows : Int) ∧
    0 ≤ t.cursorCol ∧ t.cursorCol ≤ (t.cols : Int)

/-- The machine states reachable by the claims: positive viewport and the
cursor in the box. -/
def MInv (m : Machine) : Prop :=
  1 ≤ m.term.rows ∧ 1 ≤ m.term.cols ∧ CursorInBox m.term

/-! ## 3. Export line selection (termemu/export.go) -/

/-- The export options consumed by getLinesForExport. -/
structure ExportOptions where
  includeScrollback : Bool
  startLine : Int
  endLine : Int
deriving DecidableEq, Repr

/-- The allLines local of getLinesForExport: scrollback then screen, or
only the screen. -/
def exportAllLines (t : Terminal) (opts : ExportOptions) : List (List Cell) :=
  if opts.includeScrollback then t.scrollback ++ t.screen else t.screen

/-- The startIdx local of getLinesForExport: a negative start clamps
to 0. -/
def exportStartIdx (opts : ExportOptions) : Int :=
  if opts.startLine < 0 then 0 else opts.startLine

/-- The endIdx local of getLinesForExport: a negative or past-the-end end
clamps to the last index. -/
def exportEndIdx (opts : ExportOptions) (len : Nat) : Int :=
  if opts.endLine < 0 ∨ opts.endLine ≥ (len : Int) then (len : Int) - 1 else opts.endLine

/-- Embedding of getLinesForExport: scrollback-then-screen or screen
only, early return on no lines, the clamps above, empty selection when
the range is void, then the Go slice of the inclusive range. -/
def getLinesForExport (t : Terminal) (opts : ExportOptions) : List (List Cell) :=
  if (exportAllLines t opts).length = 0 then []
  else if exportStartIdx opts > exportEndIdx opts (exportAllLines t opts).length ∨
      exportStartIdx opts ≥ ((exportAllLines t opts).length : Int) then []
  else
    ((exportAllLines t opts).drop (exportStartIdx opts).toNat).take
      (exportEndIdx opts (exportAllLines t opts).length + 1 - exportStartIdx opts).toNat

/-- The row selection in the words of the specification, to be compared
with getLinesForExport: concatenate scrollback then screen when
include_scrollback is set, otherwise only the screen; clamp a negative
start_line to 0 and an end_line that is negative or past the end to the
last index; the selection is empty when start_line exceeds end_line or is
past the end; otherwise the inclusive slice. -/
def exportSelectionSpec (t : Terminal) (opts : ExportOptions) : List (List Cell) :=
  if exportEndIdx opts (exportAllLines t opts).length < max opts.startLine 0 ∨
      ((exportAllLines t opts).length : Int) ≤ max opts.startLine 0 then []
  else
    ((exportAllLines t opts).drop (max opts.startLine 0).toNat).take
      (exportEndIdx opts (exportAllLines t opts).length + 1 - max opts.startLine 0).toNat

/-! ## 4. Daemon dispatch validation (the handleResize, handleAttach and
handleSignal handlers)

A handler returning an error makes the dispatch loop emit an ERROR frame
and nothing else, so an error result means in particular that no
RESIZE_RESPONSE or SIGNAL_RESPONSE is written.  The outcomes of the
system calls the handlers perform after validation (resizing the PTY,
delivering the signal) enter as boolean parameters. -/

/-- The failure cases of the three handlers. -/
inductive DErr
  | vtyNotEnabled
  | badPayloadLen
  | badTerminalSize (rows cols : Nat)
  | badStreamSelector (streams : Nat)
  | processNotRunning
  | killFailed
  | resizeFailed
deriving DecidableEq, Repr

/-- The acknowledgment a handler writes on success. -/
inductive DReply
  | resizeResponse
  | signalResponse
  | attachOk
deriving DecidableEq, Repr

/-- The rows decoded big-endian from bytes 0 and 1 of a RESIZE payload. -/
def resizeRowsOf (payload : List Nat) : Nat := payload.getD 0 0 * 256 + payload.getD 1 0

/-- The cols decoded big-endian from bytes 2 and 3 of a RESIZE payload. -/
def resizeColsOf (payload : List Nat) : Nat := payload.getD 2 0 * 256 + payload.getD 3 0

/-- Embedding of handleResize: requires the VTY, a 4-byte payload and
both big-endian u16 dimensions in the range 1 to 500 before resizing and
acknowledging. -/
def handleResize (useVTY resizeOk : Bool) (payload : List Nat) : Except DErr DReply :=
  if !useVTY then Except.error DErr.vtyNotEnabled
  else if payload.length ≠ 4 then Except.error DErr.badPayloadLen
  else if resizeRowsOf payload = 0 ∨ resizeColsOf payload = 0 ∨
      resizeRowsOf payload > 500 ∨ resizeColsOf payload > 500 then
    Except.error (DErr.badTerminalSize (resizeRowsOf payload) (resizeColsOf payload))
  else if !resizeOk then Except.error DErr.resizeFailed
  else Except.ok DReply.resizeResponse

/-- Embedding of handleAttach: requires a 1-byte payload whose stream
selector is 1, 2 or 3. -/
def handleAttach (payload : List Nat) : Except DErr DReply :=
  if payload.length ≠ 1 then Except.error DErr.badPayloadLen
  else if payload.getD 0 0 = 0 ∨ payload.getD 0 0 > 3 then
    Except.error (DErr.badStreamSelector (payload.getD 0 0))
  else Except.ok DReply.attachOk

/-- Embedding of handleSignal: requires a 1-byte payload, a running
process and a successful kill before acknowledging. -/
def handleSignal (running killOk : Bool) (payload : List Nat) : Except DErr DReply :=
  if payload.length ≠ 1 then Except.error DErr.badPayloadLen
  else if !running then Except.error DErr.processNotRunning
  else if !killOk then Except.error DErr.killFailed
  else Except.ok DReply.signalResponse

/-! ## 5. Tombstone-mode client (bgclient/client.go)

The filesystem state a client touches is reduced to the booleans the
claims observe: whether the runtime directory still exists.  The live
branch of Wait performs protocol I/O and is represented by a marker
outcome. -/

/-- The client as far as Wait is concerned: the mode picked at
construction and the runtime directory state. -/
structure BgClient where
  isZombie : Bool
  runtimeDirExists : Bool
deriving DecidableEq, Repr

/-- What a call to Wait does: return a wait status byte at once, or send
a WAIT request over the live connection. -/
inductive WaitOutcome
  | immediate (status : Nat)
  | sendsWaitRequest
deriving DecidableEq, Repr

/-- Embedding of the New constructor: live mode when the endpoint socket
exists, tombstone mode when only status.json exists, failure
otherwise. -/
def clientNew (socketExists statusExists : Bool) : Except String BgClient :=
  if socketExists then Except.ok { isZombie := false, runtimeDirExists := true }
  else if statusExists then Except.ok { isZombie := true, runtimeDirExists := true }
  else Except.error "process not found"

/-- Embedding of reapZombie: removes the runtime directory, failing on a
non-zombie client. -/
def BgClient.reapZombie (c : BgClient) : Except String BgClient :=
  if !c.isZombie then Except.error "cannot reap non-zombie process"
  else Except.ok { c with runtimeDirExists := false }

/-- Embedding of Wait: a zombie client reaps and reports Completed (0)
for the exit wait type (0), reports NotApplicable (2) without touching
the directory for any other wait type, all regardless of the timeout; a
live client sends the framed WAIT request instead. -/
def BgClient.wait (c : BgClient) (timeoutSecs : Nat) (waitType : Nat) :
    Except String (BgClient × WaitOutcome) :=
  if c.isZombie then
    if waitType = 0 then
      match c.reapZombie with
      | Except.ok c2 => Except.ok (c2, WaitOutcome.immediate 0)
      | Except.error e => Except.error e
    else Except.ok (c, WaitOutcome.immediate 2)
  else
    let _ := timeoutSecs
    Except.ok (c, WaitOutcome.sendsWaitRequest)

/-! ## Theorems

First the frame codec, then the terminal emulator, the export selection,
the dispatch validation and the tombstone client. -/

theorem fromBytesBE4_toBytesBE4 (n : Nat) (h : n < 2 ^ 32) :
    fromBytesBE4 (toBytesBE4 n) = n := by
  simp only [toBytesBE4, fromBytesBE4, List.foldl]
  omega

/-- C1: for every message type tag and every payload of length at most
10 * 2^20 - 1 bytes (empty payloads and arbitrary byte values included),
reading the byte stream produced by WriteMessage yields the original type
and payload, consuming the whole stream. -/
theorem readMessage_writeMessage (t : Nat) (p : List Nat)
    (ht : t < 256) (hp : p.length ≤ 10 * 2 ^ 20 - 1) :
    readMessage (writeMessage t p) = some (t, p, []) := by
  have hlen : (1 + p.length) % 2 ^ 32 = 1 + p.length := by
    apply Nat.mod_eq_of_lt; omega
  have ht' : t % 256 = t := Nat.mod_eq_of_lt ht
  have key : fromBytesBE4 [(1 + p.length) / 2 ^ 24 % 256, (1 + p.length) / 2 ^ 16 % 256,
      (1 + p.length) / 2 ^ 8 % 256, (1 + p.length) % 256] = 1 + p.length :=
    fromBytesBE4_toBytesBE4 _ (by omega)
  simp only [writeMessage, hlen, ht', toBytesBE4, List.cons_append, List.nil_append]
  simp only [readMessage, key]
  rw [if_neg (by omega)]
  rw [if_neg (by omega), show 1 + p.length - 1 = p.length from by omega,
    List.take_length, List.drop_length]

/-- Witness for C1 at a concrete input: type tag 0x90, payload containing
the bytes 0x00 and 0xFF. -/
theorem readMessage_writeMessage_witness :
    readMessage (writeMessage 144 [0, 255]) = some (144, [0, 255], []) :=
  readMessage_writeMessage 144 [0, 255] (by decide) (by decide)

/-- C2 (code bug): PROTOCOL.md declares the PROCESS_EXIT payload to be a
big-endian int32, yet parsing the payload written for exit code -1 yields
4294967295: the int conversion in ParseProcessExit performs no sign
extension on a 64-bit platform, so negative exit codes do not survive the
round trip. -/
theorem parseProcessExit_writeProcessExit_neg_one :
    parseProcessExit (writeProcessExitPayload (-1)) = Except.ok 4294967295 ∧
      (4294967295 : Int) ≠ -1 := by
  constructor
  · rfl
  · decide


/-- A parameter that is not an extended-color introducer is applied to
the pen and the iteration continues with the remaining parameters. -/
theorem processSGRList_cons_plain (p : Int) (rest : List Int) (a : Attributes)
    (h38 : p ≠ 38) (h48 : p ≠ 48) :
    processSGRList (p :: rest) a = processSGRList rest (applySGR1 a p) := by
  cases rest with
  | nil =>
    rw [processSGRList.eq_def]
    simp [h38, h48]
    rw [processSGRList.eq_def]
  | cons q r2 =>
    rw [processSGRList.eq_def]
    simp [h38, h48]

/-- C5 counterexample: the parameter list 38;5;0 ends in 0 yet leaves the
pen with a black foreground, because the trailing 0 is consumed as the
color index of the 38 introducer rather than applied as a reset. -/
theorem processSGR_trailing_zero_cex :
    processSGR [38, 5, 0] attrReset = { attrReset with fg := 0 } ∧
      ¬ processSGR [38, 5, 0] attrReset = attrReset := by
  have h1 : processSGR [38, 5, 0] attrReset = { attrReset with fg := 0 } := by
    unfold processSGR
    rw [if_neg (by simp), processSGRList.eq_def]
    simp
    rw [processSGRList.eq_def]
  refine ⟨h1, ?_⟩
  rw [h1]
  intro h
  have h2 := congrArg Attributes.fg h
  simp [attrReset] at h2

/-- C5 amended: an empty SGR parameter list resets the pen exactly as the
list 0 does, and processing is strictly left to right, so a parameter
list that contains no 38 or 48 introducer and ends in 0 leaves the pen at
the default attributes; a trailing 0 consumed as a sub-parameter of a 38
or 48 introducer does not reset the pen. -/
theorem processSGR_empty_and_trailing_zero :
    (∀ a : Attributes, processSGR [] a = processSGR [0] a) ∧
    (∀ (ps : List Int) (a : Attributes), (∀ p ∈ ps, p ≠ 38 ∧ p ≠ 48) →
      processSGR (ps ++ [0]) a = attrReset) := by
  constructor
  · intro a; rfl
  · intro ps
    induction ps with
    | nil =>
      intro a _
      show processSGR [0] a = attrReset
      unfold processSGR
      rw [if_neg (by simp), processSGRList.eq_def]
      simp [applySGR1]
    | cons p ps ih =>
      intro a h
      have hp := h p (by simp)
      have hrest : ∀ q ∈ ps, q ≠ 38 ∧ q ≠ 48 := fun q hq => h q (by simp [hq])
      rw [show (p :: ps) ++ [0] = p :: (ps ++ [0]) from rfl]
      unfold processSGR
      rw [if_neg (by simp)]
      rw [processSGRList_cons_plain p _ a hp.1 hp.2]
      have h2 := ih (applySGR1 a p) hrest
      unfold processSGR at h2
      rwa [if_neg (by simp)] at h2

/-- Witness for the amended C5 at a concrete input: the list 1;31;0 sent
with a non-default pen ends at the default attributes. -/
theorem processSGR_empty_and_trailing_zero_witness :
    processSGR ([1, 31] ++ [0]) { attrReset with underline := true } = attrReset :=
  processSGR_empty_and_trailing_zero.2 [1, 31] _ (by decide)

/-- C6: the 38 and 48 introducers followed by 5;n set the indexed pen
color when n lies in 0..15 and leave the pen unchanged when n is 16 or
more, and followed by 2;r;g;b leave the pen unchanged; in every case the
consumed sub-parameters are skipped, so the iteration resumes directly
after them and they are never interpreted as independent SGR codes. -/
theorem processSGR_extended_color :
    (∀ (n : Int) (rest : List Int) (a : Attributes), 0 ≤ n → n ≤ 15 →
      processSGR (38 :: 5 :: n :: rest) a = processSGRList rest { a with fg := n }) ∧
    (∀ (n : Int) (rest : List Int) (a : Attributes), 16 ≤ n →
      processSGR (38 :: 5 :: n :: rest) a = processSGRList rest a) ∧
    (∀ (r g b : Int) (rest : List Int) (a : Attributes),
      processSGR (38 :: 2 :: r :: g :: b :: rest) a = processSGRList rest a) ∧
    (∀ (n : Int) (rest : List Int) (a : Attributes), 0 ≤ n → n ≤ 15 →
      processSGR (48 :: 5 :: n :: rest) a = processSGRList rest { a with bg := n }) ∧
    (∀ (n : Int) (rest : List Int) (a : Attributes), 16 ≤ n →
      processSGR (48 :: 5 :: n :: rest) a = processSGRList rest a) ∧
    (∀ (r g b : Int) (rest : List Int) (a : Attributes),
      processSGR (48 :: 2 :: r :: g :: b :: rest) a = processSGRList rest a) := by
  refine ⟨?_, ?_, ?_, ?_, ?_, ?_⟩
  · intro n rest a h0 h15
    unfold processSGR
    rw [if_neg (by simp), processSGRList.eq_def]
    simp [show n < 16 from by omega]
  · intro n rest a h16
    unfold processSGR
    rw [if_neg (by simp), processSGRList.eq_def]
    simp [show ¬ n < 16 from by omega]
  · intro r g b rest a
    unfold processSGR
    rw [if_neg (by simp), processSGRList.eq_def]
    simp
  · intro n rest a h0 h15
    unfold processSGR
    rw [if_neg (by simp), processSGRList.eq_def]
    simp [show n < 16 from by omega]
  · intro n rest a h16
    unfold processSGR
    rw [if_neg (by simp), processSGRList.eq_def]
    simp [show ¬ n < 16 from by omega]
  · intro r g b rest a
    unfold processSGR
    rw [if_neg (by simp), processSGRList.eq_def]
    simp

/-- Witness for C6 at concrete inputs: index 9 is applied to the pen,
index 200 is consumed without effect, for both introducers. -/
theorem processSGR_extended_color_witness :
    processSGR [38, 5, 9] attrReset = processSGRList [] { attrReset with fg := 9 } ∧
    processSGR [38, 5, 200] attrReset = processSGRList [] attrReset ∧
    processSGR [48, 5, 9] attrReset = processSGRList [] { attrReset with bg := 9 } ∧
    processSGR [48, 5, 200] attrReset = processSGRList [] attrReset :=
  ⟨processSGR_extended_color.1 9 [] attrReset (by decide) (by decide),
   processSGR_extended_color.2.1 200 [] attrReset (by decide),
   processSGR_extended_color.2.2.2.1 9 [] attrReset (by decide) (by decide),
   processSGR_extended_color.2.2.2.2.1 200 [] attrReset (by decide)⟩

/-- Reading an indexed-map list at an in-range position applies the
function to the original entry. -/
theorem getD_mapIdx (l : List Cell) (f : Nat → Cell → Cell) (i : Nat)
    (hi : i < l.length) (d : Cell) :
    (l.mapIdx f).getD i d = f i (l.getD i d) := by
  have hi2 : i < (l.mapIdx f).length := by
    simpa [List.length_mapIdx] using hi
  have hg := List.get_mapIdx l f i hi hi2
  rw [List.getD_eq_getElem?_getD, List.getD_eq_getElem?_getD,
    List.getElem?_eq_getElem hi2, List.getElem?_eq_getElem hi]
  simpa [List.get_eq_getElem] using hg

/-- Reading the cursor row of the screen after erase-in-line modes 0
and 1: the selected range is cleared. -/
theorem getD_set_self_row (screen : List (List Cell)) (n : Nat) (x : List Cell)
    (h : n < screen.length) : (screen.set n x).getD n [] = x := by
  rw [List.getD_eq_getElem?_getD, List.getElem?_set_self h]
  rfl

/-- C10: erase-in-line with parameter 2 replaces the whole cursor line by
fresh cells and additionally resets the cursor column to 0 (the row is
untouched), while parameters 0 and 1 leave both cursor coordinates
unchanged and clear exactly their stated cell range on the cursor line:
mode 0 empties the cells from the cursor column to the end of the line
and keeps the earlier cells, mode 1 empties the cells from the start of
the line through the cursor column and keeps the later cells. -/
theorem eraseInLine_cursor_effects :
    (∀ (t : Terminal) (buf : List Nat), parseParams buf = [2] → 0 ≤ t.cursorRow →
      (t.executeCSI buf 75).screen = t.screen.set t.cursorRow.toNat (emptyRowOf t.cols) ∧
      (t.executeCSI buf 75).cursorRow = t.cursorRow ∧
      (t.executeCSI buf 75).cursorCol = 0) ∧
    (∀ (t : Terminal) (buf : List Nat) (mode : Int), parseParams buf = [mode] →
      mode = 0 ∨ mode = 1 →
      (t.executeCSI buf 75).cursorRow = t.cursorRow ∧
      (t.executeCSI buf 75).cursorCol = t.cursorCol) ∧
    (∀ (t : Terminal) (buf : List Nat), parseParams buf = [0] →
      0 ≤ t.cursorRow → t.cursorRow.toNat < t.screen.length →
      ∀ i : Nat, i < (t.screen.getD t.cursorRow.toNat []).length →
        ((t.executeCSI buf 75).screen.getD t.cursorRow.toNat []).getD i emptyCell =
          (if t.cursorCol ≤ (i : Int) ∧ (i : Int) < (t.cols : Int) then emptyCell
          else (t.screen.getD t.cursorRow.toNat []).getD i emptyCell)) ∧
    (∀ (t : Terminal) (buf : List Nat), parseParams buf = [1] →
      0 ≤ t.cursorRow → t.cursorRow.toNat < t.screen.length →
      ∀ i : Nat, i < (t.screen.getD t.cursorRow.toNat []).length →
        ((t.executeCSI buf 75).screen.getD t.cursorRow.toNat []).getD i emptyCell =
          (if (i : Int) ≤ t.cursorCol ∧ (i : Int) < (t.cols : Int) then emptyCell
          else (t.screen.getD t.cursorRow.toNat []).getD i emptyCell)) := by
  refine ⟨?_, ?_, ?_, ?_⟩
  · intro t buf hparse hrow
    refine ⟨?_, ?_, ?_⟩ <;>
      simp [Terminal.executeCSI, hparse, csiEraseLine, Terminal.clearLine, hrow]
  · intro t buf mode hparse hmode
    rcases hmode with h | h <;> subst h <;>
      constructor <;> simp [Terminal.executeCSI, hparse, csiEraseLine, updateRow]
  · intro t buf hparse h0 hlt i hi
    have hred : (t.executeCSI buf 75).screen =
        t.screen.set t.cursorRow.toNat
          ((t.screen.getD t.cursorRow.toNat []).mapIdx fun i c =>
            if t.cursorCol ≤ (i : Int) ∧ (i : Int) < (t.cols : Int) then emptyCell
            else c) := by
      simp [Terminal.executeCSI, hparse, csiEraseLine, updateRow, h0]
    rw [hred, getD_set_self_row _ _ _ hlt, getD_mapIdx _ _ i hi]
  · intro t buf hparse h0 hlt i hi
    have hred : (t.executeCSI buf 75).screen =
        t.screen.set t.cursorRow.toNat
          ((t.screen.getD t.cursorRow.toNat []).mapIdx fun i c =>
            if (i : Int) ≤ t.cursorCol ∧ (i : Int) < (t.cols : Int) then emptyCell
            else c) := by
      simp [Terminal.executeCSI, hparse, csiEraseLine, updateRow, h0]
    rw [hred, getD_set_self_row _ _ _ hlt, getD_mapIdx _ _ i hi]

/-- Witness for C10 at concrete inputs: a 2-by-2 terminal with the
cursor at row 1 column 1 for the cursor effects, and a 1-by-3 terminal
with the cursor at column 1 for the cleared and kept cells of modes 0
and 1. -/
theorem eraseInLine_cursor_effects_witness :
    (({ newTerminal 2 2 with cursorRow := 1, cursorCol := 1 }).executeCSI [50] 75).screen =
        (({ newTerminal 2 2 with cursorRow := 1, cursorCol := 1 }).screen.set 1
          (emptyRowOf 2)) ∧
      (({ newTerminal 2 2 with cursorRow := 1, cursorCol := 1 }).executeCSI [50] 75).cursorRow = 1 ∧
      (({ newTerminal 2 2 with cursorRow := 1, cursorCol := 1 }).executeCSI [50] 75).cursorCol = 0 ∧
      (({ newTerminal 2 2 with cursorRow := 1, cursorCol := 1 }).executeCSI [48] 75).cursorRow = 1 ∧
      (({ newTerminal 2 2 with cursorRow := 1, cursorCol := 1 }).executeCSI [48] 75).cursorCol = 1 ∧
      ((({ newTerminal 1 3 with cursorCol := 1 }).executeCSI [48] 75).screen.getD 0
          []).getD 2 emptyCell = emptyCell ∧
      ((({ newTerminal 1 3 with cursorCol := 1 }).executeCSI [48] 75).screen.getD 0
          []).getD 0 emptyCell =
        ((({ newTerminal 1 3 with cursorCol := 1 }) : Terminal).screen.getD 0
          []).getD 0 emptyCell ∧
      ((({ newTerminal 1 3 with cursorCol := 1 }).executeCSI [49] 75).screen.getD 0
          []).getD 0 emptyCell = emptyCell ∧
      ((({ newTerminal 1 3 with cursorCol := 1 }).executeCSI [49] 75).screen.getD 0
          []).getD 2 emptyCell =
        ((({ newTerminal 1 3 with cursorCol := 1 }) : Terminal).screen.getD 0
          []).getD 2 emptyCell := by
  refine ⟨?_, ?_, ?_, ?_, ?_, ?_, ?_, ?_, ?_⟩
  · exact (eraseInLine_cursor_effects.1 _ [50] (by decide) (by decide)).1
  · exact (eraseInLine_cursor_effects.1 _ [50] (by decide) (by decide)).2.1
  · exact (eraseInLine_cursor_effects.1 _ [50] (by decide) (by decide)).2.2
  · exact (eraseInLine_cursor_effects.2.1 _ [48] 0 (by decide) (Or.inl rfl)).1
  · exact (eraseInLine_cursor_effects.2.1 _ [48] 0 (by decide) (Or.inl rfl)).2
  · exact (eraseInLine_cursor_effects.2.2.1 ({ newTerminal 1 3 with cursorCol := 1 })
      [48] (by decide) (by decide) (by decide) 2 (by decide)).trans (by decide)
  · exact (eraseInLine_cursor_effects.2.2.1 ({ newTerminal 1 3 with cursorCol := 1 })
      [48] (by decide) (by decide) (by decide) 0 (by decide)).trans (by decide)
  · exact (eraseInLine_cursor_effects.2.2.2 ({ newTerminal 1 3 with cursorCol := 1 })
      [49] (by decide) (by decide) (by decide) 0 (by decide)).trans (by decide)
  · exact (eraseInLine_cursor_effects.2.2.2 ({ newTerminal 1 3 with cursorCol := 1 })
      [49] (by decide) (by decide) (by decide) 2 (by decide)).trans (by decide)

/-- C9: the export row selection computed by getLinesForExport agrees
with the specified selection (scrollback-then-screen or screen only,
clamped inclusive slice, empty when void) on every terminal state and
every option record. -/
theorem getLinesForExport_eq_spec (t : Terminal) (opts : ExportOptions) :
    getLinesForExport t opts = exportSelectionSpec t opts := by
  have hs : exportStartIdx opts = max opts.startLine 0 := by
    unfold exportStartIdx
    rcases lt_or_le opts.startLine 0 with h | h
    · rw [if_pos h, max_eq_right h.le]
    · rw [if_neg (not_lt.mpr h), max_eq_left h]
  unfold getLinesForExport exportSelectionSpec
  rw [hs]
  by_cases h0 : (exportAllLines t opts).length = 0
  · have hlen : ((exportAllLines t opts).length : Int) ≤ max opts.startLine 0 := by
      rw [h0]
      exact_mod_cast le_max_right opts.startLine 0
    rw [if_pos h0, if_pos (Or.inr hlen)]
  · rw [if_neg h0]

/-- Witness for C9 at a concrete input: a fresh 2-by-2 terminal exported
with scrollback, start line -3 and end line 5. -/
theorem getLinesForExport_eq_spec_witness :
    getLinesForExport (newTerminal 2 2)
        { includeScrollback := true, startLine := -3, endLine := 5 } =
      exportSelectionSpec (newTerminal 2 2)
        { includeScrollback := true, startLine := -3, endLine := 5 } :=
  getLinesForExport_eq_spec (newTerminal 2 2)
    { includeScrollback := true, startLine := -3, endLine := 5 }

/-- C7: dispatch-time validation: a RESIZE with a 4-byte payload whose
decoded rows or cols is 0 or above 500 yields an error, so the dispatch
loop emits an ERROR frame and never a RESIZE_RESPONSE; an ATTACH whose
1-byte stream mask lies outside 1..3 yields an error; a SIGNAL whose
payload is not exactly one byte yields an error. -/
theorem dispatch_validation :
    (∀ (resizeOk : Bool) (payload : List Nat), payload.length = 4 →
      (resizeRowsOf payload = 0 ∨ resizeColsOf payload = 0 ∨
        resizeRowsOf payload > 500 ∨ resizeColsOf payload > 500) →
      handleResize true resizeOk payload =
        Except.error (DErr.badTerminalSize (resizeRowsOf payload) (resizeColsOf payload))) ∧
    (∀ payload : List Nat, payload.length = 1 →
      (payload.getD 0 0 = 0 ∨ payload.getD 0 0 > 3) →
      handleAttach payload =
        Except.error (DErr.badStreamSelector (payload.getD 0 0))) ∧
    (∀ (running killOk : Bool) (payload : List Nat), payload.length ≠ 1 →
      handleSignal running killOk payload = Except.error DErr.badPayloadLen) := by
  refine ⟨?_, ?_, ?_⟩
  · intro resizeOk payload hlen hbad
    unfold handleResize
    rw [if_neg (by simp), if_neg (by simp [hlen]), if_pos hbad]
  · intro payload hlen hbad
    unfold handleAttach
    rw [if_neg (by simp [hlen]), if_pos hbad]
  · intro running killOk payload hlen
    unfold handleSignal
    rw [if_pos hlen]

/-- Witness for C7 at concrete inputs: a RESIZE payload decoding to
0 by 80, an ATTACH mask of 4, a SIGNAL payload of two bytes. -/
theorem dispatch_validation_witness :
    handleResize true true [0, 0, 0, 80] = Except.error (DErr.badTerminalSize 0 80) ∧
    handleAttach [4] = Except.error (DErr.badStreamSelector 4) ∧
    handleSignal true true [15, 15] = Except.error DErr.badPayloadLen :=
  ⟨dispatch_validation.1 true [0, 0, 0, 80] (by decide) (by decide),
   dispatch_validation.2.1 [4] (by decide) (by decide),
   dispatch_validation.2.2 true true [15, 15] (by decide)⟩

/-- C8: a client constructed in tombstone mode (endpoint socket absent,
status.json present) services Wait locally for every timeout: the exit
wait type (0) reports Completed (0) and removes the runtime directory,
the foreground wait type (1) reports NotApplicable (2) and removes
nothing. -/
theorem tombstone_wait (c : BgClient) (timeoutSecs : Nat)
    (hc : clientNew false true = Except.ok c) :
    c.wait timeoutSecs 0 =
      Except.ok ({ c with runtimeDirExists := false }, WaitOutcome.immediate 0) ∧
    c.wait timeoutSecs 1 = Except.ok (c, WaitOutcome.immediate 2) := by
  have h2 : Except.ok ({ isZombie := true, runtimeDirExists := true } : BgClient) =
      Except.ok c := hc
  cases h2
  exact ⟨rfl, rfl⟩

/-- Witness for C8 at a concrete input: the tombstone client with the
directory still present and a 7 second timeout. -/
theorem tombstone_wait_witness :
    (BgClient.mk true true).wait 7 0 =
      Except.ok (BgClient.mk true false, WaitOutcome.immediate 0) ∧
    (BgClient.mk true true).wait 7 1 =
      Except.ok (BgClient.mk true true, WaitOutcome.immediate 2) :=
  tombstone_wait (BgClient.mk true true) 7 rfl

/-! ## Preservation lemmas for the terminal invariants -/

/-- The OSC handler only ever rewrites the hyperlink field. -/
theorem executeOSC_fields (t : Terminal) (data : List Nat) :
    (t.executeOSC data).rows = t.rows ∧ (t.executeOSC data).cols = t.cols ∧
    (t.executeOSC data).screen = t.screen ∧
    (t.executeOSC data).scrollback = t.scrollback ∧
    (t.executeOSC data).cursorRow = t.cursorRow ∧
    (t.executeOSC data).cursorCol = t.cursorCol ∧
    (t.executeOSC data).maxScrollback = t.maxScrollback := by
  unfold Terminal.executeOSC
  repeat' split
  all_goals simp

/-- The line feed changes no dimension, no column and no pen. -/
theorem lineFeed_fields (t : Terminal) :
    t.lineFeed.rows = t.rows ∧ t.lineFeed.cols = t.cols ∧
    t.lineFeed.maxScrollback = t.maxScrollback ∧
    t.lineFeed.cursorCol = t.cursorCol := by
  unfold Terminal.lineFeed
  refine ⟨?_, ?_, ?_, ?_⟩ <;>
    simp [apply_ite Terminal.rows, apply_ite Terminal.cols,
      apply_ite Terminal.maxScrollback, apply_ite Terminal.cursorCol]

/-- The line feed keeps a nonnegative cursor row strictly inside a
positive viewport. -/
theorem lineFeed_cursorRow (t : Terminal) (hr : 1 ≤ t.rows) (h0 : 0 ≤ t.cursorRow) :
    0 ≤ t.lineFeed.cursorRow ∧ t.lineFeed.cursorRow < (t.rows : Int) := by
  unfold Terminal.lineFeed
  constructor <;>
    · simp only [apply_ite Terminal.cursorRow]
      split <;> omega

/-- The line feed keeps the scrollback within its bound. -/
theorem lineFeed_scrollback_le (t : Terminal)
    (h : t.scrollback.length ≤ t.maxScrollback) :
    t.lineFeed.scrollback.length ≤ t.maxScrollback := by
  have hlen : (t.scrollback ++ [topLineOf t]).length = t.scrollback.length + 1 := by
    simp
  unfold Terminal.lineFeed
  simp only [apply_ite Terminal.scrollback]
  split
  · split
    · split
      · simp only [List.length_drop]
        omega
      · omega
    · exact h
  · exact h

/-- Writing one character preserves the dimensions and the (pending-wrap)
cursor box. -/
theorem putChar_inv (t : Terminal) (ch : Nat) (hr : 1 ≤ t.rows) (hc : 1 ≤ t.cols)
    (h : CursorInBox t) :
    (t.putChar ch).rows = t.rows ∧ (t.putChar ch).cols = t.cols ∧
    CursorInBox (t.putChar ch) := by
  obtain ⟨hb0, hb1, hb2, hb3⟩ := h
  obtain ⟨hf0, hf1, hf2, hf3⟩ := lineFeed_fields t
  obtain ⟨hl0, hl1⟩ := lineFeed_cursorRow t hr hb0
  simp only [Terminal.putChar, CursorInBox]
  split_ifs with h1 h2 h3 <;> simp_all <;> omega

/-- Writing one character does not enlarge the scrollback beyond its
bound. -/
theorem putChar_scrollback (t : Terminal) (ch : Nat)
    (h : t.scrollback.length ≤ t.maxScrollback) :
    (t.putChar ch).scrollback.length ≤ (t.putChar ch).maxScrollback ∧
    (t.putChar ch).maxScrollback = t.maxScrollback := by
  obtain ⟨hf0, hf1, hf2, hf3⟩ := lineFeed_fields t
  have hsb := lineFeed_scrollback_le t h
  simp only [Terminal.putChar]
  split_ifs with h1 h2 h3 <;> simp_all

/-- The clamped cursor move lands inside a positive viewport. -/
theorem moveCursor_inv (t : Terminal) (row col : Int) (hr : 1 ≤ t.rows)
    (hc : 1 ≤ t.cols) :
    (t.moveCursor row col).rows = t.rows ∧ (t.moveCursor row col).cols = t.cols ∧
    CursorInBox (t.moveCursor row col) := by
  simp only [Terminal.moveCursor, CursorInBox]
  split_ifs <;> simp_all <;> omega

/-- CSI execution never touches the scrollback, its bound or the
dimensions. -/
theorem executeCSI_untouched (t : Terminal) (buf : List Nat) (cmd : Nat) :
    (t.executeCSI buf cmd).scrollback = t.scrollback ∧
    (t.executeCSI buf cmd).maxScrollback = t.maxScrollback ∧
    (t.executeCSI buf cmd).rows = t.rows ∧ (t.executeCSI buf cmd).cols = t.cols := by
  simp only [Terminal.executeCSI]
  split_ifs <;>
    simp [csiCursorUp, csiCursorDown, csiCursorForward, csiCursorBack,
      csiEraseDisplay, csiEraseLine, Terminal.moveCursor, Terminal.clearScreen,
      Terminal.clearLine, apply_ite Terminal.scrollback,
      apply_ite Terminal.maxScrollback, apply_ite Terminal.rows,
      apply_ite Terminal.cols]

/-- The head default of a nonnegative list with a nonnegative default is
nonnegative. -/
theorem headD_nonneg (l : List Int) (hl : ∀ p ∈ l, 0 ≤ p) (d : Int) (hd : 0 ≤ d) :
    0 ≤ l.headD d := by
  cases l with
  | nil => simpa using hd
  | cons x xs => simpa using hl x (by simp)

/-- The boolean parameter check unpacked into membership form. -/
theorem csiParamsNonneg_mem (buf : List Nat) (h : csiParamsNonneg buf = true) :
    ∀ p ∈ parseParams buf, 0 ≤ p := by
  intro p hp
  have h2 := List.all_eq_true.mp h p hp
  simpa using h2

/-- Truncating division of a nonnegative integer by 8 is nonnegative. -/
theorem tdiv8_nonneg (a : Int) (h : 0 ≤ a) : 0 ≤ a.tdiv 8 := by
  obtain ⟨n, rfl⟩ := Int.eq_ofNat_of_zero_le h
  exact Int.ofNat_nonneg (n / 8)

/-- Cursor-up keeps the cursor in the box when its parameter is
nonnegative. -/
theorem csiCursorUp_inv (t : Terminal) (params : List Int) (hr : 1 ≤ t.rows)
    (hc : 1 ≤ t.cols) (h : CursorInBox t) (hn : 0 ≤ params.headD 1) :
    (csiCursorUp t params).rows = t.rows ∧ (csiCursorUp t params).cols = t.cols ∧
    CursorInBox (csiCursorUp t params) := by
  obtain ⟨h0, h1, h2, h3⟩ := h
  simp only [csiCursorUp, CursorInBox]
  split_ifs <;> simp_all <;> omega

/-- Cursor-down keeps the cursor in the box when its parameter is
nonnegative. -/
theorem csiCursorDown_inv (t : Terminal) (params : List Int) (hr : 1 ≤ t.rows)
    (hc : 1 ≤ t.cols) (h : CursorInBox t) (hn : 0 ≤ params.headD 1) :
    (csiCursorDown t params).rows = t.rows ∧ (csiCursorDown t params).cols = t.cols ∧
    CursorInBox (csiCursorDown t params) := by
  obtain ⟨h0, h1, h2, h3⟩ := h
  simp only [csiCursorDown, CursorInBox]
  split_ifs <;> simp_all <;> omega

/-- Cursor-forward keeps the cursor in the box when its parameter is
nonnegative. -/
theorem csiCursorForward_inv (t : Terminal) (params : List Int) (hr : 1 ≤ t.rows)
    (hc : 1 ≤ t.cols) (h : CursorInBox t) (hn : 0 ≤ params.headD 1) :
    (csiCursorForward t params).rows = t.rows ∧
    (csiCursorForward t params).cols = t.cols ∧
    CursorInBox (csiCursorForward t params) := by
  obtain ⟨h0, h1, h2, h3⟩ := h
  simp only [csiCursorForward, CursorInBox]
  split_ifs <;> simp_all <;> omega

/-- Cursor-back keeps the cursor in the box when its parameter is
nonnegative. -/
theorem csiCursorBack_inv (t : Terminal) (params : List Int) (hr : 1 ≤ t.rows)
    (hc : 1 ≤ t.cols) (h : CursorInBox t) (hn : 0 ≤ params.headD 1) :
    (csiCursorBack t params).rows = t.rows ∧ (csiCursorBack t params).cols = t.cols ∧
    CursorInBox (csiCursorBack t params) := by
  obtain ⟨h0, h1, h2, h3⟩ := h
  simp only [csiCursorBack, CursorInBox]
  split_ifs <;> simp_all <;> omega

/-- Erase-in-display keeps the cursor in the box. -/
theorem csiEraseDisplay_inv (t : Terminal) (params : List Int) (hr : 1 ≤ t.rows)
    (hc : 1 ≤ t.cols) (h : CursorInBox t) :
    (csiEraseDisplay t params).rows = t.rows ∧
    (csiEraseDisplay t params).cols = t.cols ∧
    CursorInBox (csiEraseDisplay t params) := by
  obtain ⟨h0, h1, h2, h3⟩ := h
  simp only [csiEraseDisplay, Terminal.clearScreen, CursorInBox]
  split_ifs <;> simp_all <;> omega

/-- Erase-in-line keeps the cursor in the box. -/
theorem csiEraseLine_inv (t : Terminal) (params : List Int) (hr : 1 ≤ t.rows)
    (hc : 1 ≤ t.cols) (h : CursorInBox t) :
    (csiEraseLine t params).rows = t.rows ∧ (csiEraseLine t params).cols = t.cols ∧
    CursorInBox (csiEraseLine t params) := by
  obtain ⟨h0, h1, h2, h3⟩ := h
  simp only [csiEraseLine, Terminal.clearLine, CursorInBox]
  split_ifs <;> simp_all <;> omega

/-- CSI execution with nonnegative parameters keeps the cursor in the
box and preserves the dimensions. -/
theorem executeCSI_cursor (t : Terminal) (buf : List Nat) (cmd : Nat)
    (hr : 1 ≤ t.rows) (hc : 1 ≤ t.cols) (h : CursorInBox t)
    (hnn : csiParamsNonneg buf = true) :
    (t.executeCSI buf cmd).rows = t.rows ∧ (t.executeCSI buf cmd).cols = t.cols ∧
    CursorInBox (t.executeCSI buf cmd) := by
  have hmem := csiParamsNonneg_mem buf hnn
  have hn1 : 0 ≤ (parseParams buf).headD 1 := headD_nonneg _ hmem 1 (by omega)
  simp only [Terminal.executeCSI]
  split_ifs with h65 h66 h67 h68 hHf h74 h75 h109
  · exact csiCursorUp_inv t _ hr hc h hn1
  · exact csiCursorDown_inv t _ hr hc h hn1
  · exact csiCursorForward_inv t _ hr hc h hn1
  · exact csiCursorBack_inv t _ hr hc h hn1
  · exact moveCursor_inv t _ _ hr hc
  · exact csiEraseDisplay_inv t _ hr hc h
  · exact csiEraseLine_inv t _ hr hc h
  · exact ⟨rfl, rfl, h⟩
  · exact ⟨rfl, rfl, h⟩

/-- Builder for the machine invariant from bounds on the terminal. -/
theorem minv_of_term (t : Terminal) (ps : ParserState) (bf : List Nat)
    (h1 : 1 ≤ t.rows) (h2 : 1 ≤ t.cols) (h3 : CursorInBox t) :
    MInv { term := t, pstate := ps, buf := bf } := ⟨h1, h2, h3⟩

/-- Builder for the cursor box over an explicit terminal record. -/
theorem cursorBox_mk (rows cols : Nat) (screen scrollback : List (List Cell))
    (r c : Int) (maxSb : Nat) (hyper : Option Hyperlink) (attr : Attributes)
    (h0 : 0 ≤ r) (h1 : r < (rows : Int)) (h2 : 0 ≤ c) (h3 : c ≤ (cols : Int)) :
    CursorInBox (Terminal.mk rows cols screen scrollback r c maxSb hyper attr) :=
  ⟨h0, h1, h2, h3⟩

/-- One parser step under the parameter guard keeps the machine
invariant. -/
theorem processByte_minv (m : Machine) (b : Nat) (h : MInv m)
    (hok : m.byteOk b = true) : MInv (m.processByte b) := by
  obtain ⟨hr, hc, hbox⟩ := h
  obtain ⟨h0, h1, h2, h3⟩ := hbox
  unfold Machine.processByte
  split
  · -- normal
    have ht := tdiv8_nonneg m.term.cursorCol h2
    unfold Machine.processNormal Terminal.carriageReturn Terminal.backspace
    split_ifs with hb1 hb2 hb3 hb4 hb5 hb6 hb7 hb8
    · exact ⟨hr, hc, h0, h1, h2, h3⟩
    · obtain ⟨hf0, hf1, hf2, hf3⟩ := lineFeed_fields m.term
      obtain ⟨hl0, hl1⟩ := lineFeed_cursorRow m.term hr h0
      exact minv_of_term _ _ _ (by omega) (by omega)
        ⟨by omega, by omega, by omega, by omega⟩
    · exact minv_of_term _ _ _ hr hc
        (cursorBox_mk _ _ _ _ _ _ _ _ _ (by omega) (by omega) (by omega) (by omega))
    · exact minv_of_term _ _ _ hr hc
        (cursorBox_mk _ _ _ _ _ _ _ _ _ (by omega) (by omega) (by omega) (by omega))
    · exact ⟨hr, hc, h0, h1, h2, h3⟩
    · exact minv_of_term _ _ _ hr hc
        (cursorBox_mk _ _ _ _ _ _ _ _ _ (by omega) (by omega) (by omega) (by omega))
    · exact ⟨hr, hc, h0, h1, h2, h3⟩
    · obtain ⟨e0, e1, e2⟩ := putChar_inv m.term b hr hc ⟨h0, h1, h2, h3⟩
      exact minv_of_term _ _ _ (by omega) (by omega) e2
    · exact ⟨hr, hc, h0, h1, h2, h3⟩
  · -- escape
    unfold Machine.processEscape
    split_ifs with hb1 hb2 hb3 hb4
    · exact ⟨hr, hc, h0, h1, h2, h3⟩
    · exact ⟨hr, hc, h0, h1, h2, h3⟩
    · exact minv_of_term _ _ _ hr hc
        (cursorBox_mk _ _ _ _ _ _ _ _ _ (by omega) (by omega) (by omega) (by omega))
    · exact ⟨hr, hc, h0, h1, h2, h3⟩
    · exact ⟨hr, hc, h0, h1, h2, h3⟩
  · -- csi
    rename_i hps
    unfold Machine.processCSI
    split_ifs with hfin
    · have hnn : csiParamsNonneg m.buf = true := by
        unfold Machine.byteOk at hok
        rw [hps] at hok
        rwa [if_pos hfin] at hok
      obtain ⟨e0, e1, e2⟩ := executeCSI_cursor m.term m.buf b hr hc ⟨h0, h1, h2, h3⟩ hnn
      exact minv_of_term _ _ _ (by omega) (by omega) e2
    · exact ⟨hr, hc, h0, h1, h2, h3⟩
  · -- osc
    unfold Machine.processOSC
    obtain ⟨g0, g1, g2, g3, g4, g5, g6⟩ := executeOSC_fields m.term m.buf
    split_ifs with hb1 hb2
    · exact minv_of_term _ _ _ (by omega) (by omega)
        ⟨by omega, by omega, by omega, by omega⟩
    · exact ⟨hr, hc, h0, h1, h2, h3⟩
    · exact ⟨hr, hc, h0, h1, h2, h3⟩
  · -- oscEscape
    unfold Machine.processOSCEscape
    obtain ⟨g0, g1, g2, g3, g4, g5, g6⟩ := executeOSC_fields m.term m.buf
    split_ifs with hb1
    · exact minv_of_term _ _ _ (by omega) (by omega)
        ⟨by omega, by omega, by omega, by omega⟩
    · exact ⟨hr, hc, h0, h1, h2, h3⟩

/-- A guarded write keeps the machine invariant. -/
theorem write_minv (data : List Nat) :
    ∀ m : Machine, MInv m → m.writeOk data = true → MInv (m.write data) := by
  induction data with
  | nil => intro m h _; exact h
  | cons b rest ih =>
    intro m h hok
    simp only [Machine.writeOk, Bool.and_eq_true] at hok
    have h1 := processByte_minv m b h hok.1
    have h2 := ih (m.processByte b) h1 hok.2
    simpa [Machine.write, List.foldl] using h2

/-- A resize to positive dimensions installs them and keeps the cursor
in the box. -/
theorem resize_minv (t : Terminal) (r c : Nat) (hr : 1 ≤ r) (hc : 1 ≤ c)
    (h : CursorInBox t) :
    (t.resize r c).rows = r ∧ (t.resize r c).cols = c ∧
    CursorInBox (t.resize r c) := by
  obtain ⟨h0, h1, h2, h3⟩ := h
  simp only [Terminal.resize, CursorInBox]
  split_ifs <;> simp_all <;> omega

/-- One guarded operation keeps the machine invariant. -/
theorem applyOp_minv (m : Machine) (op : TermOp) (h : MInv m)
    (hok : m.opOk op = true) : MInv (m.applyOp op) := by
  cases op with
  | write d => exact write_minv d m h (by simpa [Machine.opOk] using hok)
  | resize r c =>
    simp only [Machine.opOk, Bool.and_eq_true, decide_eq_true_eq] at hok
    obtain ⟨hr, hc, hbox⟩ := h
    obtain ⟨e0, e1, e2⟩ := resize_minv m.term r c hok.1 hok.2 hbox
    exact minv_of_term _ _ _ (by omega) (by omega) e2

/-- A guarded operation sequence keeps the machine invariant. -/
theorem applyOps_minv (ops : List TermOp) :
    ∀ m : Machine, MInv m → m.opsOk ops = true → MInv (m.applyOps ops) := by
  induction ops with
  | nil => intro m h _; exact h
  | cons op rest ih =>
    intro m h hok
    simp only [Machine.opsOk, Bool.and_eq_true] at hok
    have h1 := applyOp_minv m op h hok.1
    have h2 := ih (m.applyOp op) h1 hok.2
    simpa [Machine.applyOps, List.foldl] using h2

/-- A fresh machine over a positive viewport satisfies the invariant. -/
theorem newMachine_minv (rows cols : Nat) (hr : 1 ≤ rows) (hc : 1 ≤ cols) :
    MInv (Machine.new rows cols) := by
  refine ⟨hr, hc, ?_, ?_, ?_, ?_⟩ <;> simp [Machine.new, newTerminal] <;> omega

/-- Builder for the scrollback bound over an explicit machine record. -/
theorem sb_of_term (t : Terminal) (ps : ParserState) (bf : List Nat) (k : Nat)
    (h1 : t.scrollback.length ≤ t.maxScrollback) (h2 : t.maxScrollback = k) :
    ({ term := t, pstate := ps, buf := bf } : Machine).term.scrollback.length ≤
      ({ term := t, pstate := ps, buf := bf } : Machine).term.maxScrollback ∧
    ({ term := t, pstate := ps, buf := bf } : Machine).term.maxScrollback = k :=
  ⟨h1, h2⟩

/-- A resize never touches the scrollback or its bound. -/
theorem resize_scrollback (t : Terminal) (r c : Nat) :
    (t.resize r c).scrollback = t.scrollback ∧
    (t.resize r c).maxScrollback = t.maxScrollback := by
  simp [Terminal.resize]

/-- One parser step keeps the scrollback within its bound and preserves
the bound, for every byte. -/
theorem processByte_scrollback (m : Machine) (b : Nat)
    (h : m.term.scrollback.length ≤ m.term.maxScrollback) :
    (m.processByte b).term.scrollback.length ≤
      (m.processByte b).term.maxScrollback ∧
    (m.processByte b).term.maxScrollback = m.term.maxScrollback := by
  obtain ⟨hf0, hf1, hf2, hf3⟩ := lineFeed_fields m.term
  have hlf := lineFeed_scrollback_le m.term h
  obtain ⟨hp0, hp1⟩ := putChar_scrollback m.term b h
  obtain ⟨u0, u1, u2, u3⟩ := executeCSI_untouched m.term m.buf b
  obtain ⟨g0, g1, g2, g3, g4, g5, g6⟩ := executeOSC_fields m.term m.buf
  have hu := congrArg List.length u0
  have hg := congrArg List.length g3
  unfold Machine.processByte
  split
  · unfold Machine.processNormal Terminal.carriageReturn Terminal.backspace
    split_ifs
    · exact sb_of_term _ _ _ _ h rfl
    · exact sb_of_term _ _ _ _ (by omega) hf2
    · exact sb_of_term _ _ _ _ h rfl
    · exact sb_of_term _ _ _ _ h rfl
    · exact sb_of_term _ _ _ _ h rfl
    · exact sb_of_term _ _ _ _ h rfl
    · exact sb_of_term _ _ _ _ h rfl
    · exact sb_of_term _ _ _ _ hp0 hp1
    · exact sb_of_term _ _ _ _ h rfl
  · unfold Machine.processEscape
    split_ifs
    · exact sb_of_term _ _ _ _ h rfl
    · exact sb_of_term _ _ _ _ h rfl
    · exact sb_of_term _ _ _ _ h rfl
    · exact sb_of_term _ _ _ _ h rfl
    · exact sb_of_term _ _ _ _ h rfl
  · unfold Machine.processCSI
    split_ifs
    · exact sb_of_term _ _ _ _ (by omega) u1
    · exact sb_of_term _ _ _ _ h rfl
  · unfold Machine.processOSC
    split_ifs
    · exact sb_of_term _ _ _ _ (by omega) g6
    · exact sb_of_term _ _ _ _ h rfl
    · exact sb_of_term _ _ _ _ h rfl
  · unfold Machine.processOSCEscape
    split_ifs
    · exact sb_of_term _ _ _ _ (by omega) g6
    · exact sb_of_term _ _ _ _ h rfl

/-- A write keeps the scrollback within its bound and preserves the
bound. -/
theorem write_scrollback (data : List Nat) :
    ∀ m : Machine, m.term.scrollback.length ≤ m.term.maxScrollback →
      (m.write data).term.scrollback.length ≤ (m.write data).term.maxScrollback ∧
      (m.write data).term.maxScrollback = m.term.maxScrollback := by
  induction data with
  | nil => intro m h; exact ⟨h, rfl⟩
  | cons b rest ih =>
    intro m h
    obtain ⟨s1, s2⟩ := processByte_scrollback m b h
    obtain ⟨s3, s4⟩ := ih (m.processByte b) s1
    constructor
    · simpa [Machine.write, List.foldl] using s3
    · have : (m.write (b :: rest)).term.maxScrollback =
          ((m.processByte b).write rest).term.maxScrollback := rfl
      omega

/-- Any operation keeps the scrollback within its bound and preserves
the bound. -/
theorem applyOp_scrollback (m : Machine) (op : TermOp)
    (h : m.term.scrollback.length ≤ m.term.maxScrollback) :
    (m.applyOp op).term.scrollback.length ≤ (m.applyOp op).term.maxScrollback ∧
    (m.applyOp op).term.maxScrollback = m.term.maxScrollback := by
  cases op with
  | write d => exact write_scrollback d m h
  | resize r c =>
    obtain ⟨r0, r1⟩ := resize_scrollback m.term r c
    have := congrArg List.length r0
    exact sb_of_term _ _ _ _ (by omega) r1

/-- Any operation sequence keeps the scrollback within its bound and
preserves the bound. -/
theorem applyOps_scrollback (ops : List TermOp) :
    ∀ m : Machine, m.term.scrollback.length ≤ m.term.maxScrollback →
      (m.applyOps ops).term.scrollback.length ≤
        (m.applyOps ops).term.maxScrollback ∧
      (m.applyOps ops).term.maxScrollback = m.term.maxScrollback := by
  induction ops with
  | nil => intro m h; exact ⟨h, rfl⟩
  | cons op rest ih =>
    intro m h
    obtain ⟨s1, s2⟩ := applyOp_scrollback m op h
    obtain ⟨s3, s4⟩ := ih (m.applyOp op) s1
    constructor
    · simpa [Machine.applyOps, List.foldl] using s3
    · have : (m.applyOps (op :: rest)).term.maxScrollback =
          ((m.applyOp op).applyOps rest).term.maxScrollback := rfl
      omega

/-! ## The cursor and scrollback claims -/

/-- C3 counterexample: on a 1-by-1 terminal, writing the single printable
byte A leaves the cursor column at 1, which is not strictly below cols =
1: after a write the cursor column can rest one past the last column (the
pending-wrap position), so the claimed invariant cursor_col < cols fails. -/
theorem cursor_strict_bound_cex :
    ((Machine.new 1 1).write [65]).term.cursorCol = 1 ∧
      ¬ ((Machine.new 1 1).write [65]).term.cursorCol <
          (((Machine.new 1 1).write [65]).term.cols : Int) := by
  constructor
  · rfl
  · decide

/-- C3 amended: for every terminal created with positive rows and cols,
after every Write whose executed CSI sequences carry only nonnegative
parameters and after every Resize to positive dimensions, the cursor
satisfies 0 <= cursor_row < rows and 0 <= cursor_col <= cols; the column
may equal cols just after a write into the last column, and a CSI
parameter that parses negative (for example the buffer -5 before a B
final byte) escapes the clamping entirely, which is why the guard on
parameters is required. -/
theorem cursor_in_viewport (rows cols : Nat) (hr : 1 ≤ rows) (hc : 1 ≤ cols)
    (ops : List TermOp) (hops : (Machine.new rows cols).opsOk ops = true) :
    CursorInBox ((Machine.new rows cols).applyOps ops).term :=
  (applyOps_minv ops (Machine.new rows cols) (newMachine_minv rows cols hr hc)
    hops).2.2

/-- Witness for the amended C3 at a concrete input: a 2-by-3 terminal,
a write of the letter H and a line feed, then a resize to 1 by 1. -/
theorem cursor_in_viewport_witness :
    CursorInBox
      ((Machine.new 2 3).applyOps
        [TermOp.write [72, 10], TermOp.resize 1 1]).term :=
  cursor_in_viewport 2 3 (by decide) (by decide)
    [TermOp.write [72, 10], TermOp.resize 1 1] (by decide)

/-- C4: when a line feed fires with the cursor on the last row of a
well-formed screen, the top row is appended to the scrollback tail (the
oldest entry being dropped when the length would exceed max_scrollback),
the screen shifts up by one with a cleared bottom row, and the cursor row
stays at rows - 1 with the column unchanged; moreover after every
sequence of Write and Resize operations on a fresh terminal the
scrollback length never exceeds 1000, the default max_scrollback. -/
theorem lineFeed_scroll_and_bound :
    (∀ t : Terminal, t.cursorRow = (t.rows : Int) - 1 → 1 ≤ t.rows →
      t.screen.length = t.rows → (t.screen.headD []).length = t.cols →
      t.lineFeed.scrollback =
        (if t.maxScrollback < t.scrollback.length + 1 then
          (t.scrollback ++ [t.screen.headD []]).drop 1
        else t.scrollback ++ [t.screen.headD []]) ∧
      t.lineFeed.screen = t.screen.drop 1 ++ [emptyRowOf t.cols] ∧
      t.lineFeed.cursorRow = (t.rows : Int) - 1 ∧
      t.lineFeed.cursorCol = t.cursorCol) ∧
    (∀ (rows cols : Nat) (ops : List TermOp),
      ((Machine.new rows cols).applyOps ops).term.scrollback.length ≤ 1000) := by
  constructor
  · intro t hrow hr hlen hhead
    have htop : topLineOf t = t.screen.headD [] := by
      simp only [topLineOf]
      rw [← hhead, List.take_length]
      simp
    have hlen1 : (t.scrollback ++ [t.screen.headD []]).length =
        t.scrollback.length + 1 := by
      simp
    have hshift :
        (t.screen.drop 1 ++ t.screen.drop (t.screen.length - 1)).set (t.rows - 1)
            (emptyRowOf t.cols) =
          t.screen.drop 1 ++ [emptyRowOf t.cols] := by
      have l1 : (t.screen.drop 1).length = t.rows - 1 := by
        simp [hlen]
      have l2 : (t.screen.drop (t.screen.length - 1)).length = 1 := by
        simp [hlen]
        omega
      obtain ⟨y, hy⟩ := List.length_eq_one.mp l2
      rw [hy, List.set_append_right _ _ (by omega)]
      rw [show t.rows - 1 - (t.screen.drop 1).length = 0 from by omega]
      rfl
    simp only [Terminal.lineFeed]
    rw [if_pos (by omega : (t.rows : Int) ≤ t.cursorRow + 1)]
    rw [if_pos (by omega : 0 < t.screen.length)]
    refine ⟨?_, ?_, rfl, rfl⟩
    · show (if (t.scrollback ++ [topLineOf t]).length > t.maxScrollback
            then (t.scrollback ++ [topLineOf t]).drop 1
            else t.scrollback ++ [topLineOf t]) = _
      rw [htop]
      by_cases hmax : (t.scrollback ++ [t.screen.headD []]).length > t.maxScrollback
      · rw [if_pos hmax, if_pos (by omega)]
      · rw [if_neg hmax, if_neg (by omega)]
    · show (t.screen.drop 1 ++ t.screen.drop (t.screen.length - 1)).set (t.rows - 1)
          (emptyRowOf t.cols) = _
      exact hshift
  · intro rows cols ops
    have h0 : (Machine.new rows cols).term.scrollback.length ≤
        (Machine.new rows cols).term.maxScrollback := by
      simp [Machine.new, newTerminal]
    obtain ⟨s1, s2⟩ := applyOps_scrollback ops (Machine.new rows cols) h0
    have hmax : (Machine.new rows cols).term.maxScrollback = 1000 := rfl
    omega

/-- Witness for C4 at a concrete input: a 1-by-2 terminal whose single
row is the whole screen, and the empty operation sequence on a 2-by-2
terminal. -/
theorem lineFeed_scroll_and_bound_witness :
    (newTerminal 1 2).lineFeed.scrollback = [emptyRowOf 2] ∧
    (newTerminal 1 2).lineFeed.screen = [emptyRowOf 2] ∧
    (newTerminal 1 2).lineFeed.cursorRow = 0 ∧
    ((Machine.new 2 2).applyOps []).term.scrollback.length ≤ 1000 := by
  obtain ⟨hsb, hscr, hrow, hcol⟩ := lineFeed_scroll_and_bound.1 (newTerminal 1 2)
    (by decide) (by decide) (by decide) (by decide)
  refine ⟨?_, ?_, ?_, lineFeed_scroll_and_bound.2 2 2 []⟩
  · rw [hsb]; decide
  · rw [hscr]; decide
  · rw [hrow]; decide

end BGRun
